import Mathlib

/-!
Shallow embedding of the compound-kernel module `GPy/kern/kern.py`.

The Python class `kern` holds a list of kernel parts, per-part input
(column) slices, derived per-part parameter slices, and constraint
metadata inherited from the external `parameterised` base class.  All
numeric buffers are numpy arrays; here they are ragged lists of
integers (`Mat`), since every property of interest is structural
(shapes, slicing, accumulation regions, concatenation) and independent
of the numeric carrier.

Kernel parts (`kernpart`) are external collaborators: each owns a
hyperparameter count `Nparam`, a parameter vector, and operations that
accumulate additively into a caller-supplied view of a shared output
buffer.  They are modelled as records of total functions returning the
increment that the part adds into its view.

Numpy view semantics: an in-place accumulation `view += inc`, where
`view = target[rows, cols]` for basic (slice) indexing, adds
`inc[a][b]` to `target[i][j]` whenever `i` is the `a`-th selected row
and `j` is the `b`-th selected column.  `accum2` / `accum3` implement
exactly this for 2-d and 3-d targets.

Python `slice` objects are modelled by `PySlice`; `PySlice.indices`
transcribes CPython's `PySlice_GetIndicesEx` clamping algorithm (for a
zero step CPython raises `ValueError`; the model returns a triple with
step 0, which no code path here ever produces).
-/

namespace GPy

abbrev Vec := List Int
abbrev Mat := List Vec
abbrev Arr3 := List Mat

/-- Column count of a matrix, `X.shape[1]` for a (homogeneous) numpy array. -/
def Mat.shape1 (X : Mat) : Nat := (X.headD []).length

/-- Entry of a matrix at row `i`, column `j` (0 outside the bounds). -/
def Mat.ent (X : Mat) (i j : Nat) : Int := (X.getD i []).getD j 0

/-- Python slice object: optional start, stop, step. -/
structure PySlice where
  start : Option Int
  stop : Option Int
  step : Option Int
deriving DecidableEq

/-- Python `slice(None)`: every index. -/
def fullSlice : PySlice := ⟨none, none, none⟩

/-- Python `slice(0)`, i.e. `slice(None, 0, None)`: the empty range. -/
def zeroSlice : PySlice := ⟨none, some 0, none⟩

/-- CPython `slice.indices(len)` clamping (PySlice_GetIndicesEx): returns the
concrete (start, stop, step) for an axis of length `len`. -/
def PySlice.indices (sl : PySlice) (len : Nat) : Int × Int × Int :=
  let step : Int := sl.step.getD 1
  let lower : Int := if step < 0 then -1 else 0
  let upper : Int := if step < 0 then (len : Int) - 1 else (len : Int)
  let start : Int :=
    match sl.start with
    | none => if step < 0 then upper else lower
    | some s => if s < 0 then max (s + (len : Int)) lower else min s upper
  let stop : Int :=
    match sl.stop with
    | none => if step < 0 then lower else upper
    | some s => if s < 0 then max (s + (len : Int)) lower else min s upper
  (start, stop, step)

/-- Number of indices selected by a clamped (start, stop, step) triple,
following CPython's PySlice_AdjustIndices length computation. -/
def sliceCount (start stop step : Int) : Nat :=
  if 0 < step then
    (if start < stop then ((stop - start - 1) / step + 1).toNat else 0)
  else
    (if stop < start then ((start - stop - 1) / (-step) + 1).toNat else 0)

/-- The list of indices a Python slice selects on an axis of length `len`. -/
def PySlice.resolve (sl : PySlice) (len : Nat) : List Nat :=
  let t := sl.indices len
  (List.range (sliceCount t.1 t.2.1 t.2.2)).map (fun (k : Nat) => (t.1 + (k : Int) * t.2.2).toNat)

/-- A row-selector element as passed to `_process_slices`: a Python bool, a
Python slice, or any other object (which fails both `type(s_i) is bool` and
`type(s_i) is slice` checks). -/
inductive PySel where
  | pbool (b : Bool)
  | psl (s : PySlice)
  | pother
deriving DecidableEq

/-- Python `type(s_i) is bool`. -/
def PySel.isBool : PySel → Bool
  | .pbool _ => true
  | _ => false

/-- Python `type(s_i) is slice`. -/
def PySel.isSlice : PySel → Bool
  | .psl _ => true
  | _ => false

/-- The map `slice(None) if s_i else slice(0)` applied to a boolean selector
(only reached when every element is a bool). -/
def PySel.boolToSlice : PySel → PySlice
  | .pbool true => fullSlice
  | _ => zeroSlice

/-- Underlying slice of a slice selector (only reached when every element is a
slice). -/
def PySel.toSlice : PySel → PySlice
  | .psl s => s
  | _ => fullSlice

/-- Map a function that also receives the element's index, starting from `s`.
Used to express elementwise updates of numpy buffers. -/
def mapIdxFrom (f : Nat → α → β) : Nat → List α → List β
  | _, [] => []
  | i, a :: as => f i a :: mapIdxFrom f (i + 1) as

/-- Amount added at absolute position (i, j) of a 2-d target when the
increment `inc` is accumulated into the view `target[rows, cols]` selecting
row indices `rs` and column indices `cs`. -/
def viewDelta (rs cs : List Nat) (inc : Mat) (i j : Nat) : Int :=
  if i ∈ rs ∧ j ∈ cs then Mat.ent inc (rs.indexOf i) (cs.indexOf j) else 0

/-- In-place accumulation `target[rs, cs] += inc` on a 2-d buffer. -/
def accum2 (t : Mat) (rs cs : List Nat) (inc : Mat) : Mat :=
  mapIdxFrom (fun i row => mapIdxFrom (fun j v => v + viewDelta rs cs inc i j) 0 row) 0 t

/-- Amount added at absolute position (i, j, l) of a 3-d target when `inc` is
accumulated into the view selecting indices `as_`, `bs`, `cs` on the three
axes. -/
def viewDelta3 (as_ bs cs : List Nat) (inc : Arr3) (i j l : Nat) : Int :=
  if i ∈ as_ ∧ j ∈ bs ∧ l ∈ cs then
    ((inc.getD (as_.indexOf i) []).getD (bs.indexOf j) []).getD (cs.indexOf l) 0
  else 0

/-- In-place accumulation into a 3-d buffer view. -/
def accum3 (t : Arr3) (as_ bs cs : List Nat) (inc : Arr3) : Arr3 :=
  mapIdxFrom
    (fun i pl => mapIdxFrom
      (fun j row => mapIdxFrom (fun l v => v + viewDelta3 as_ bs cs inc i j l) 0 row) 0 pl)
    0 t

/-- Numpy `np.zeros((r, c))`. -/
def zerosMat (r c : Nat) : Mat := List.replicate r (List.replicate c 0)

/-- Numpy `np.zeros((a, b, c))`. -/
def zeros3 (a b c : Nat) : Arr3 := List.replicate a (zerosMat b c)

/-- Numpy `np.zeros_like(X)`. -/
def zerosLike (X : Mat) : Mat := X.map (fun row => row.map (fun _ => 0))

/-- Elementwise sum of two vectors (specification-side notion used to state
the sum-kernel property). -/
def vecAdd : Vec → Vec → Vec
  | a :: as, b :: bs => (a + b) :: vecAdd as bs
  | _, _ => []

/-- Elementwise sum of two matrices. -/
def matAdd : Mat → Mat → Mat
  | r :: rs, q :: qs => vecAdd r q :: matAdd rs qs
  | _, _ => []

/-- Numpy basic indexing `X[rsl, csl]` with a row slice and a column slice;
the column slice is resolved against `X.shape[1]`. -/
def Mat.index (X : Mat) (rsl csl : PySlice) : Mat :=
  (rsl.resolve X.length).map fun i =>
    (csl.resolve (Mat.shape1 X)).map fun j => Mat.ent X i j

/-- Python list slicing `x[sl]` on a 1-d parameter vector. -/
def pySliceList (x : List Int) (sl : PySlice) : List Int :=
  (sl.resolve x.length).map fun i => x.getD i 0

/-- Modelled from the spec: the class `kernpart` (file `kernpart.py`, imported
by this module but not part of it) is the external capability contract of
section 3 of the spec — a single covariance function owning a count of
hyperparameters (`Nparam`) and its current parameter vector (returned by its
`get_param`, replaced by its `set_param`), whose operations accumulate
additively into a caller-supplied output view.  Each operation is modelled by
a total function producing the increment the part adds into its view. -/
structure kernpart where
  Nparam : Nat
  params : List Int
  Kf : Mat → Mat → Mat
  dpsi0_dthetaf : Mat → Mat → Mat → Mat
  dpsi1_dthetaf : Mat → Mat → Mat → Arr3
  dpsi2_dthetaf : Mat → Mat → Mat → Arr3

instance : Inhabited kernpart :=
  ⟨⟨0, [], fun _ _ => [], fun _ _ _ => [], fun _ _ _ => [], fun _ _ _ => []⟩⟩

/-- The compound kernel class `kern`.  Fields `D`, `parts`, `input_slices`
are set by `__init__`; the constraint index collections live on the external
`parameterised` base class.  Modelled from the spec: the base parameter
container owns index sets for positive / negative / bounded / fixed
constraints (with lower, upper and fixed value collections) and tied-index
groups; this module only reads and merges them, so their numeric carrier is
opaque and taken to be `Int`. -/
structure kern where
  D : Nat
  parts : List kernpart
  input_slices : List PySlice
  constrained_positive_indices : List Int
  constrained_negative_indices : List Int
  constrained_bounded_indices : List Int
  constrained_bounded_lowers : List Int
  constrained_bounded_uppers : List Int
  constrained_fixed_indices : List Int
  constrained_fixed_values : List Int
  tied_indices : List (List Int)

/-- Attribute `self.Nparam = sum([p.Nparam for p in self.parts])`, set in
`__init__`; every constructor call recomputes it, so it is modelled as a
derived function. -/
def kern.Nparam (k : kern) : Nat := (k.parts.map kernpart.Nparam).sum

/-- Attribute `self.Nparts = len(parts)`. -/
def kern.Nparts (k : kern) : Nat := k.parts.length

/-- Running-offset recursion of `compute_param_slices`:
`slice(count, count + p.Nparam)` for each part. -/
def paramSlicesAux : Nat → List kernpart → List PySlice
  | _, [] => []
  | count, p :: ps =>
    ⟨some (count : Int), some ((count + p.Nparam : Nat) : Int), none⟩ ::
      paramSlicesAux (count + p.Nparam) ps

/-- Attribute `self.param_slices`, built by `compute_param_slices` at every
construction; modelled as a derived function of `parts`. -/
def kern.param_slices (k : kern) : List PySlice := paramSlicesAux 0 k.parts

/-- Constructor `kern.__init__(D, parts, input_slices)`: a missing
`input_slices` defaults to `[slice(None) for p in parts]` (the `__init__`
also asserts `len(input_slices) == len(parts)` and coerces non-slice
entries to `slice(None)`; callers here always pass genuine slices of the
right length).  The constraint collections are freshly initialised (empty)
by `parameterised.__init__`. -/
def kern.init (D : Nat) (parts : List kernpart) (input_slices : Option (List PySlice)) : kern :=
  { D := D
    parts := parts
    input_slices := input_slices.getD (parts.map (fun _ => fullSlice))
    constrained_positive_indices := []
    constrained_negative_indices := []
    constrained_bounded_indices := []
    constrained_bounded_lowers := []
    constrained_bounded_uppers := []
    constrained_fixed_indices := []
    constrained_fixed_values := []
    tied_indices := [] }

/-- Method `__add__` / `add`: concatenates parts and input slices into a new
kern over the same `D` (the Python code asserts `self.D == other.D`;
theorems carry that as a hypothesis), then transfers the constraint
collections, shifting the other kernel's indices by `self.Nparam`. -/
def kern.add (a b : kern) : kern :=
  let nk := kern.init a.D (a.parts ++ b.parts) (some (a.input_slices ++ b.input_slices))
  { nk with
    constrained_positive_indices :=
      a.constrained_positive_indices ++
        b.constrained_positive_indices.map (fun x => (a.Nparam : Int) + x)
    constrained_negative_indices :=
      a.constrained_negative_indices ++
        b.constrained_negative_indices.map (fun x => (a.Nparam : Int) + x)
    constrained_bounded_indices :=
      a.constrained_bounded_indices ++
        b.constrained_bounded_indices.map (fun x => (a.Nparam : Int) + x)
    constrained_bounded_lowers := a.constrained_bounded_lowers ++ b.constrained_bounded_lowers
    constrained_bounded_uppers := a.constrained_bounded_uppers ++ b.constrained_bounded_uppers
    constrained_fixed_indices :=
      a.constrained_fixed_indices ++
        b.constrained_fixed_indices.map (fun x => (a.Nparam : Int) + x)
    constrained_fixed_values := a.constrained_fixed_values ++ b.constrained_fixed_values
    tied_indices :=
      a.tied_indices ++ b.tied_indices.map (fun g => g.map (fun x => (a.Nparam : Int) + x)) }

/-- Method `add_orthogonal`: new kern over `self.D + other.D`; the first
kernel's input slices become `slice(*sl.indices(self.D))`, the second's are
resolved over `other.D` and shifted by `self.D` on start and stop; the
constraint transfer is identical to `__add__`. -/
def kern.add_orthogonal (a b : kern) : kern :=
  let selfSlices := a.input_slices.map (fun sl =>
    let t := sl.indices a.D
    PySlice.mk (some t.1) (some t.2.1) (some t.2.2))
  let otherSlices := b.input_slices.map (fun sl =>
    let t := sl.indices b.D
    PySlice.mk (some (t.1 + (a.D : Int))) (some (t.2.1 + (a.D : Int))) (some t.2.2))
  let nk := kern.init (a.D + b.D) (a.parts ++ b.parts) (some (selfSlices ++ otherSlices))
  { nk with
    constrained_positive_indices :=
      a.constrained_positive_indices ++
        b.constrained_positive_indices.map (fun x => (a.Nparam : Int) + x)
    constrained_negative_indices :=
      a.constrained_negative_indices ++
        b.constrained_negative_indices.map (fun x => (a.Nparam : Int) + x)
    constrained_bounded_indices :=
      a.constrained_bounded_indices ++
        b.constrained_bounded_indices.map (fun x => (a.Nparam : Int) + x)
    constrained_bounded_lowers := a.constrained_bounded_lowers ++ b.constrained_bounded_lowers
    constrained_bounded_uppers := a.constrained_bounded_uppers ++ b.constrained_bounded_uppers
    constrained_fixed_indices :=
      a.constrained_fixed_indices ++
        b.constrained_fixed_indices.map (fun x => (a.Nparam : Int) + x)
    constrained_fixed_values := a.constrained_fixed_values ++ b.constrained_fixed_values
    tied_indices :=
      a.tied_indices ++ b.tied_indices.map (fun g => g.map (fun x => (a.Nparam : Int) + x)) }

/-- Method `get_param`: `np.hstack([p.get_param() for p in self.parts])`. -/
def kern.get_param (k : kern) : List Int := (k.parts.map kernpart.params).flatten

/-- Method `set_param`: `[p.set_param(x[s]) for p, s in zip(self.parts,
self.param_slices)]`.  There is no length check on `x`; Python slicing
clamps each `x[s]` to the available elements. -/
def kern.set_param (k : kern) (x : List Int) : kern :=
  { k with
    parts := List.zipWith (fun p sl => { p with params := pySliceList x sl }) k.parts k.param_slices }

/-- Resolution of one row-selector argument in `_process_slices`: absent
means one full slice per part; an all-bool list maps each bool; otherwise
every element must be a slice or the assertion `"invalid slice objects"`
fails.  List length is never compared with the number of parts. -/
def processSel (n : Nat) : Option (List PySel) → Except String (List PySlice)
  | none => .ok (List.replicate n fullSlice)
  | some l =>
    if l.all PySel.isBool then .ok (l.map PySel.boolToSlice)
    else if l.all PySel.isSlice then .ok (l.map PySel.toSlice)
    else .error "invalid slice objects"

/-- Method `_process_slices(slices1, slices2)` in its binary form: `slices1`
is resolved first, then `slices2`. -/
def kern.process_slices (k : kern) (s1 s2 : Option (List PySel)) :
    Except String (List PySlice × List PySlice) :=
  match processSel k.Nparts s1 with
  | .error e => .error e
  | .ok l1 =>
    match processSel k.Nparts s2 with
    | .error e => .error e
    | .ok l2 => .ok (l1, l2)

/-- Method `_process_slices(slices, False)`: the `False` sentinel makes the
routine return only the first resolved selector list. -/
def kern.process_slices1 (k : kern) (s : Option (List PySel)) :
    Except String (List PySlice) :=
  processSel k.Nparts s

/-- Accumulation loop of `kern.K`: for each part,
`p.K(X[s1, i_s], X2[s2, i_s], target=target[s1, s2])`; the Python `zip`
truncates to the shortest of the four lists. -/
def kFold (X X2 : Mat) : List kernpart → List PySlice → List PySlice → List PySlice → Mat → Mat
  | p :: ps, i_s :: iss, s1 :: ss1, s2 :: ss2, t =>
    kFold X X2 ps iss ss1 ss2
      (accum2 t (s1.resolve X.length) (s2.resolve X2.length)
        (p.Kf (Mat.index X s1 i_s) (Mat.index X2 s2 i_s)))
  | _, _, _, _, t => t

/-- Method `kern.K(X, X2, slices1, slices2)`: asserts `X.shape[1] == self.D`,
resolves the row selectors, defaults `X2` to `X`, and accumulates every
part into a zero matrix of shape `(X.shape[0], X2.shape[0])`.  Note that
`X2.shape[1]` is never checked. -/
def kern.K (k : kern) (X : Mat) (X2o : Option Mat) (s1 s2 : Option (List PySel)) :
    Except String Mat :=
  if Mat.shape1 X = k.D then
    match k.process_slices s1 s2 with
    | .error e => .error e
    | .ok (sl1, sl2) =>
      let X2 := X2o.getD X
      .ok (kFold X X2 k.parts k.input_slices sl1 sl2 (zerosMat X.length X2.length))
  else .error "assert X.shape balk self.D"

/-- Method `kern.dKdiag_dX(self, X, slices=None)`: the signature takes no
upstream-gradient argument, yet the body evaluates
`p.dKdiag_dX(partial[s], X[s, i_s], target[s, i_s])`, where `partial` can
only denote the module-level `functools.partial` class imported at the top
of the file.  Subscripting that class raises a `TypeError` as soon as the
comprehension's `zip(self.parts, self.input_slices, slices)` yields its
first triple; with an empty zip the zero target is returned untouched. -/
def kern.dKdiag_dX (k : kern) (X : Mat) (slices : Option (List PySel)) :
    Except String Mat :=
  if Mat.shape1 X = k.D then
    match k.process_slices1 slices with
    | .error e => .error e
    | .ok sls =>
      match k.parts, k.input_slices, sls with
      | _ :: _, _ :: _, _ :: _ => .error "TypeError: functools.partial object is not subscriptable"
      | _, _, _ => .ok (zerosLike X)
  else .error "assert X.shape balk self.D"

/-- Accumulation loop of `dpsi0_dtheta`: for each part and parameter slice,
`p.dpsi0_dtheta(Z, mu, S, target[s])` — note the view `target[s]` slices the
leading (data) axis of the `(N, Nparam)` target with the parameter slice,
covering every parameter column of the selected rows. -/
def dpsi0Fold (Z mu S : Mat) (N P : Nat) : List kernpart → List PySlice → Mat → Mat
  | p :: ps, sl :: sls, t =>
    dpsi0Fold Z mu S N P ps sls
      (accum2 t (sl.resolve N) (List.range P) (p.dpsi0_dthetaf Z mu S))
  | _, _, t => t

/-- Method `dpsi0_dtheta(Z, mu, S)`: zero target of shape
`(mu.shape[0], self.Nparam)`, accumulated via `target[s]` per part. -/
def kern.dpsi0_dtheta (k : kern) (Z mu S : Mat) : Mat :=
  dpsi0Fold Z mu S mu.length k.Nparam k.parts k.param_slices (zerosMat mu.length k.Nparam)

/-- Accumulation loop shared by `dpsi1_dtheta` and `dpsi2_dtheta`: for each
part and parameter slice, the part accumulates into `target[:, :, s]` — the
parameter axis of a 3-d target of leading shape `(A, B)`. -/
def dpsiFold3 (f : kernpart → Arr3) (A B P : Nat) : List kernpart → List PySlice → Arr3 → Arr3
  | p :: ps, sl :: sls, t =>
    dpsiFold3 f A B P ps sls
      (accum3 t (List.range A) (List.range B) (sl.resolve P) (f p))
  | _, _, t => t

/-- Method `dpsi1_dtheta(Z, mu, S)`: zero target of shape
`(mu.shape[0], Z.shape[0], self.Nparam)`, each part writing into
`target[:, :, s]`. -/
def kern.dpsi1_dtheta (k : kern) (Z mu S : Mat) : Arr3 :=
  dpsiFold3 (fun p => p.dpsi1_dthetaf Z mu S) mu.length Z.length k.Nparam
    k.parts k.param_slices (zeros3 mu.length Z.length k.Nparam)

/-- Method `dpsi2_dtheta(Z, mu, S)`: the target is allocated as
`np.zeros((Z.shape[0], Z.shape[0], self.Nparam))` — no leading data
dimension, although the docstring announces shape `(N, M, M, Ntheta)`. -/
def kern.dpsi2_dtheta (k : kern) (Z mu S : Mat) : Arr3 :=
  dpsiFold3 (fun p => p.dpsi2_dthetaf Z mu S) Z.length Z.length k.Nparam
    k.parts k.param_slices (zeros3 Z.length Z.length k.Nparam)

/-- Specification-side definition (spec section 4.6): an input slice
"normalized to explicit ranges" over a dimension `D`. -/
def specNormalize (D : Nat) (sl : PySlice) : PySlice :=
  let t := sl.indices D
  PySlice.mk (some t.1) (some t.2.1) (some t.2.2)

/-- Specification-side definition (spec section 4.6): a normalized slice
"shifted by `self.dimension`". -/
def specShift (off : Nat) (sl : PySlice) : PySlice :=
  PySlice.mk (sl.start.map (fun v => v + (off : Int))) (sl.stop.map (fun v => v + (off : Int)))
    sl.step

/-- Specification-side definition (spec section 4.2): the flat parameter
vector split into consecutive per-part chunks of the given sizes. -/
def splitChunks (x : List Int) : List Nat → List (List Int)
  | [] => []
  | n :: ns => x.take n :: splitChunks (x.drop n) ns

/-- Specification-side characterisation of a malformed row selector: present,
but neither an all-boolean list nor an all-slice list. -/
def selectorMalformed : Option (List PySel) → Prop
  | none => False
  | some l => l.all PySel.isBool = false ∧ l.all PySel.isSlice = false

instance : DecidablePred selectorMalformed := by
  intro s
  cases s with
  | none => exact isFalse (fun h => h)
  | some l => exact instDecidableAnd

/-! Helper lemmas about the list and buffer primitives. -/

theorem mapIdxFrom_length (f : Nat → α → β) (s : Nat) (l : List α) :
    (mapIdxFrom f s l).length = l.length := by
  induction l generalizing s with
  | nil => rfl
  | cons a as ih => simp [mapIdxFrom, ih]

theorem mapIdxFrom_getElem? (f : Nat → α → β) (s i : Nat) (l : List α) :
    (mapIdxFrom f s l)[i]? = l[i]?.map (f (s + i)) := by
  induction l generalizing s i with
  | nil => simp [mapIdxFrom]
  | cons a as ih =>
    cases i with
    | zero => simp [mapIdxFrom]
    | succ j =>
      simp only [mapIdxFrom, List.getElem?_cons_succ, ih (s + 1) j]
      have : s + 1 + j = s + (j + 1) := by omega
      rw [this]

theorem vecAdd_getElem? (u v : Vec) (i : Nat) :
    (vecAdd u v)[i]? = match u[i]?, v[i]? with
      | some a, some b => some (a + b)
      | _, _ => none := by
  induction u generalizing v i with
  | nil => cases v <;> simp [vecAdd]
  | cons a as ih =>
    cases v with
    | nil => simp [vecAdd]
    | cons b bs =>
      cases i with
      | zero => simp [vecAdd]
      | succ j => simpa [vecAdd] using ih bs j

theorem matAdd_getElem? (A B : Mat) (i : Nat) :
    (matAdd A B)[i]? = match A[i]?, B[i]? with
      | some r, some q => some (vecAdd r q)
      | _, _ => none := by
  induction A generalizing B i with
  | nil => cases B <;> simp [matAdd]
  | cons r rs ih =>
    cases B with
    | nil => simp [matAdd]
    | cons q qs =>
      cases i with
      | zero => simp [matAdd]
      | succ j => simpa [matAdd] using ih qs j

theorem accum2_getElem? (t : Mat) (rs cs : List Nat) (inc : Mat) (i : Nat) :
    (accum2 t rs cs inc)[i]? =
      t[i]?.map (fun row => mapIdxFrom (fun j v => v + viewDelta rs cs inc i j) 0 row) := by
  simpa using mapIdxFrom_getElem? _ 0 i t

theorem resolve_natRange (c n L : Nat) (h : c + n ≤ L) :
    (PySlice.mk (some (c : Int)) (some ((c + n : Nat) : Int)) none).resolve L
      = List.range' c n := by
  have h1 : ¬ ((1 : Int) < 0) := by decide
  have h1' : (0 : Int) < 1 := by decide
  have hc0 : ¬ ((c : Int) < 0) := by omega
  have hcn0 : ¬ (((c + n : Nat) : Int) < 0) := by omega
  simp only [PySlice.resolve, PySlice.indices, sliceCount, Option.getD_none, if_neg h1,
    if_neg hc0, if_neg hcn0, if_pos h1']
  rw [min_eq_left (by omega : (c : Int) ≤ (L : Int)),
    min_eq_left (by omega : ((c + n : Nat) : Int) ≤ (L : Int))]
  rcases Nat.eq_zero_or_pos n with h0 | h0
  · subst h0
    rw [if_neg (by omega : ¬ ((c : Int) < ((c + 0 : Nat) : Int)))]
    simp
  · rw [if_pos (by omega : (c : Int) < ((c + n : Nat) : Int)), Int.ediv_one]
    have hcount : ((c + n : Nat) : Int) - c - 1 + 1 = (n : Int) := by push_cast; ring
    rw [hcount, Int.toNat_natCast, List.range'_eq_map_range]
    apply List.map_congr_left
    intro k hk
    simp only [List.mem_range] at hk
    omega

theorem resolve_full (n : Nat) : fullSlice.resolve n = List.range n := by
  have h1 : ¬ ((1 : Int) < 0) := by decide
  have h1' : (0 : Int) < 1 := by decide
  simp only [PySlice.resolve, PySlice.indices, sliceCount, fullSlice, Option.getD_none,
    if_neg h1, if_pos h1']
  rcases Nat.eq_zero_or_pos n with h0 | h0
  · simp [h0]
  · rw [if_pos (by omega : (0 : Int) < (n : Int)), Int.ediv_one]
    have hcount : (n : Int) - 0 - 1 + 1 = (n : Int) := by ring
    rw [hcount, Int.toNat_natCast]
    apply List.map_congr_left ?_ |>.trans (List.map_id _)
    intro k hk
    simp only [List.mem_range] at hk
    simp only [id_eq]
    omega

theorem resolve_zero (n : Nat) : zeroSlice.resolve n = [] := by
  have h1 : ¬ ((1 : Int) < 0) := by decide
  have h1' : (0 : Int) < 1 := by decide
  have hz : ¬ ((0 : Int) < 0) := by decide
  simp only [PySlice.resolve, PySlice.indices, sliceCount, zeroSlice, Option.getD_none,
    if_neg h1, if_pos h1', if_neg hz]
  rw [min_eq_left (by omega : (0 : Int) ≤ (n : Int))]
  rw [if_neg hz]
  simp


theorem map_getD_range' (x : List Int) : ∀ (n c : Nat), c + n ≤ x.length →
    (List.range' c n).map (fun i => x.getD i 0) = (x.drop c).take n := by
  intro n
  induction n with
  | zero => simp
  | succ m ih =>
    intro c hc
    have hclt : c < x.length := by omega
    rw [List.range'_succ, List.map_cons, ih (c + 1) (by omega),
      List.drop_eq_getElem_cons hclt, List.take_succ_cons]
    congr 1
    simp [List.getD_eq_getElem?_getD, List.getElem?_eq_getElem hclt]

theorem paramSlicesAux_length : ∀ (ps : List kernpart) (c : Nat),
    (paramSlicesAux c ps).length = ps.length := by
  intro ps
  induction ps with
  | nil => intro c; rfl
  | cons p ps ih => intro c; simp [paramSlicesAux, ih]

theorem pySliceList_chunk (x : List Int) (c n : Nat) (h : c + n ≤ x.length) :
    pySliceList x (PySlice.mk (some (c : Int)) (some ((c + n : Nat) : Int)) none)
      = (x.drop c).take n := by
  rw [pySliceList, resolve_natRange c n x.length h]
  exact map_getD_range' x n c h

theorem set_param_fold (x : List Int) : ∀ (ps : List kernpart) (pre : List Int),
    x = pre ++ (ps.map kernpart.params).flatten →
    (∀ p ∈ ps, p.params.length = p.Nparam) →
    List.zipWith (fun p sl => { p with params := pySliceList x sl }) ps
      (paramSlicesAux pre.length ps) = ps := by
  intro ps
  induction ps with
  | nil => intro pre _ _; rfl
  | cons p ps ih =>
    intro pre hx hlen
    have hplen : p.params.length = p.Nparam := hlen p (by simp)
    have hx' : x = pre ++ (p.params ++ (ps.map kernpart.params).flatten) := by
      rw [hx]; simp [List.map_cons, List.flatten_cons]
    rw [paramSlicesAux, List.zipWith_cons_cons]
    have hxlen : pre.length + p.Nparam ≤ x.length := by
      rw [hx']
      simp only [List.length_append, hplen]
      omega
    have hhead : pySliceList x
        (PySlice.mk (some (pre.length : Int)) (some ((pre.length + p.Nparam : Nat) : Int)) none)
        = p.params := by
      rw [pySliceList_chunk x pre.length p.Nparam hxlen, hx', List.drop_left' rfl]
      rw [← hplen, List.take_left]
    rw [hhead]
    have htail := ih (pre ++ p.params)
      (by rw [hx', List.append_assoc]) (fun q hq => hlen q (by simp [hq]))
    rw [List.length_append, hplen] at htail
    rw [htail]

theorem set_param_chunks (x : List Int) : ∀ (ps : List kernpart) (c : Nat),
    c + (ps.map kernpart.Nparam).sum ≤ x.length →
    (List.zipWith (fun p sl => { p with params := pySliceList x sl }) ps
      (paramSlicesAux c ps)).map kernpart.params
      = splitChunks (x.drop c) (ps.map kernpart.Nparam) := by
  intro ps
  induction ps with
  | nil => intro c _; rfl
  | cons p ps ih =>
    intro c hc
    simp only [List.map_cons, List.sum_cons] at hc
    have hcn : c + p.Nparam ≤ x.length := by omega
    rw [paramSlicesAux, List.zipWith_cons_cons, List.map_cons, List.map_cons, splitChunks]
    congr 1
    · exact pySliceList_chunk x c p.Nparam hcn
    · rw [List.drop_drop]
      exact ih (c + p.Nparam) (by omega)


theorem accum2_accum2_zeros (n m : Nat) (r1 c1 r2 c2 : List Nat) (a b : Mat) :
    accum2 (accum2 (zerosMat n m) r1 c1 a) r2 c2 b
      = matAdd (accum2 (zerosMat n m) r1 c1 a) (accum2 (zerosMat n m) r2 c2 b) := by
  apply List.ext_getElem?
  intro i
  simp only [accum2_getElem?, matAdd_getElem?]
  cases hz : (zerosMat n m)[i]? with
  | none => simp
  | some row =>
    have hrow : row = List.replicate m 0 := by
      rw [zerosMat, List.getElem?_replicate] at hz
      by_cases hi : i < n
      · rw [if_pos hi] at hz; exact (Option.some.injEq _ _ ▸ hz.symm :)
      · rw [if_neg hi] at hz; exact absurd hz (by simp)
    subst hrow
    simp only [Option.map_some']
    congr 1
    apply List.ext_getElem?
    intro j
    simp only [mapIdxFrom_getElem?, vecAdd_getElem?]
    cases hj : (List.replicate (m : Nat) (0 : Int))[j]? with
    | none => simp
    | some v =>
      have hv : v = 0 := by
        rw [List.getElem?_replicate] at hj
        by_cases hjm : j < m
        · rw [if_pos hjm] at hj; exact (Option.some.injEq _ _ ▸ hj.symm :)
        · rw [if_neg hjm] at hj; exact absurd hj (by simp)
      subst hv
      simp only [Option.map_some']
      congr 1
      ring


theorem processSel_error_iff (n : Nat) (s : Option (List PySel)) :
    (∃ e, processSel n s = .error e) ↔ selectorMalformed s := by
  cases s with
  | none => simp [processSel, selectorMalformed]
  | some l =>
    simp only [processSel, selectorMalformed]
    by_cases hb : l.all PySel.isBool = true
    · simp [hb]
    · by_cases hs : l.all PySel.isSlice = true
      · simp [hb, hs]
      · simp [hb, hs]

theorem process_slices_error_iff (k : kern) (s1 s2 : Option (List PySel)) :
    (∃ e, k.process_slices s1 s2 = .error e)
      ↔ (selectorMalformed s1 ∨ selectorMalformed s2) := by
  unfold kern.process_slices
  rcases h1 : processSel k.Nparts s1 with e1 | l1
  · have hm1 : selectorMalformed s1 := (processSel_error_iff k.Nparts s1).mp ⟨e1, h1⟩
    simp [hm1]
  · have hm1 : ¬ selectorMalformed s1 := by
      rw [← processSel_error_iff k.Nparts s1]
      rintro ⟨e, he⟩
      rw [h1] at he
      exact Except.noConfusion he
    rcases h2 : processSel k.Nparts s2 with e2 | l2
    · have hm2 : selectorMalformed s2 := (processSel_error_iff k.Nparts s2).mp ⟨e2, h2⟩
      simp [hm2]
    · have hm2 : ¬ selectorMalformed s2 := by
        rw [← processSel_error_iff k.Nparts s2]
        rintro ⟨e, he⟩
        rw [h2] at he
        exact Except.noConfusion he
      simp [hm1, hm2]


/-! Concrete kernel parts and composites used as witnesses and counterexamples. -/

/-- Single-parameter part whose covariance increment is the constant matrix [[1]]. -/
def partKA : kernpart where
  Nparam := 1
  params := [3]
  Kf := fun _ _ => [[1]]
  dpsi0_dthetaf := fun _ _ _ => []
  dpsi1_dthetaf := fun _ _ _ => []
  dpsi2_dthetaf := fun _ _ _ => []

/-- Single-parameter part whose covariance increment is the constant matrix [[2]]. -/
def partKB : kernpart where
  Nparam := 1
  params := [4]
  Kf := fun _ _ => [[2]]
  dpsi0_dthetaf := fun _ _ _ => []
  dpsi1_dthetaf := fun _ _ _ => []
  dpsi2_dthetaf := fun _ _ _ => []

def kKA : kern := kern.init 1 [partKA] none
def kKB : kern := kern.init 1 [partKB] none

/-- C1: for a composite built by add from two single-part kernels A and B over
the same dimension, and any inputs X, X2 with D columns and no row selectors,
the composite covariance K(X, X2) is the elementwise sum of A.K(X, X2) and
B.K(X, X2), each part accumulating additively into its full-range view. -/
theorem C1_thm (pa pb : kernpart) (sa sb : PySlice) (A B : kern) (X X2 : Mat)
    (hA : A.parts = [pa]) (hAs : A.input_slices = [sa])
    (hB : B.parts = [pb]) (hBs : B.input_slices = [sb])
    (hD : B.D = A.D) (hX : Mat.shape1 X = A.D) (hX2 : Mat.shape1 X2 = A.D) :
    ∃ MA MB,
      A.K X (some X2) none none = .ok MA ∧ B.K X (some X2) none none = .ok MB ∧
      (A.add B).K X (some X2) none none = .ok (matAdd MA MB) := by
  have hABparts : (A.add B).parts = [pa, pb] := by
    simp [kern.add, kern.init, hA, hB]
  have hABslices : (A.add B).input_slices = [sa, sb] := by
    simp [kern.add, kern.init, hAs, hBs]
  have hABD : (A.add B).D = A.D := by
    simp [kern.add, kern.init]
  refine ⟨accum2 (zerosMat X.length X2.length) (fullSlice.resolve X.length)
      (fullSlice.resolve X2.length) (pa.Kf (Mat.index X fullSlice sa) (Mat.index X2 fullSlice sa)),
    accum2 (zerosMat X.length X2.length) (fullSlice.resolve X.length)
      (fullSlice.resolve X2.length) (pb.Kf (Mat.index X fullSlice sb) (Mat.index X2 fullSlice sb)),
    ?_, ?_, ?_⟩
  · unfold kern.K kern.process_slices processSel kern.Nparts
    rw [hA, hAs, if_pos hX]
    rfl
  · unfold kern.K kern.process_slices processSel kern.Nparts
    rw [hB, hBs, if_pos (hD ▸ hX)]
    rfl
  · unfold kern.K kern.process_slices processSel kern.Nparts
    rw [hABparts, hABslices, hABD, if_pos hX]
    show Except.ok (kFold X X2 [pa, pb] [sa, sb]
      (List.replicate 2 fullSlice) (List.replicate 2 fullSlice)
      (zerosMat X.length X2.length)) = _
    rw [show (kFold X X2 [pa, pb] [sa, sb] (List.replicate 2 fullSlice)
        (List.replicate 2 fullSlice) (zerosMat X.length X2.length)) =
      accum2 (accum2 (zerosMat X.length X2.length) (fullSlice.resolve X.length)
          (fullSlice.resolve X2.length)
          (pa.Kf (Mat.index X fullSlice sa) (Mat.index X2 fullSlice sa)))
        (fullSlice.resolve X.length) (fullSlice.resolve X2.length)
        (pb.Kf (Mat.index X fullSlice sb) (Mat.index X2 fullSlice sb)) from rfl]
    rw [accum2_accum2_zeros]


/-- Witness for C1 at two concrete one-part kernels and one-row inputs. -/
theorem C1_witness : kKA.parts = [partKA] ∧ kKB.D = kKA.D ∧ Mat.shape1 [[0]] = kKA.D ∧
    (∃ MA MB, kKA.K [[0]] (some [[0]]) none none = .ok MA ∧
      kKB.K [[0]] (some [[0]]) none none = .ok MB ∧
      (kKA.add kKB).K [[0]] (some [[0]]) none none = .ok (matAdd MA MB)) :=
  ⟨rfl, rfl, rfl,
    C1_thm partKA partKB fullSlice fullSlice kKA kKB [[0]] [[0]] rfl rfl rfl rfl rfl rfl rfl⟩

/-- Two-parameter part used for the parameter round-trip witness. -/
def partC2 : kernpart where
  Nparam := 2
  params := [3, 4]
  Kf := fun _ _ => []
  dpsi0_dthetaf := fun _ _ _ => []
  dpsi1_dthetaf := fun _ _ _ => []
  dpsi2_dthetaf := fun _ _ _ => []

def kC2 : kern := kern.init 1 [partC2] none

/-- C2: under the kernpart contract that each part's parameter vector has
length Nparam, get_param returns a vector of length exactly Nparam (the total
parameter count), and set_param (get_param ()) restores the kernel unchanged. -/
theorem C2_thm (k : kern) (h : ∀ p ∈ k.parts, p.params.length = p.Nparam) :
    k.get_param.length = k.Nparam ∧ k.set_param k.get_param = k := by
  constructor
  · rw [kern.get_param, List.length_flatten, List.map_map, kern.Nparam]
    exact congrArg List.sum (List.map_congr_left (fun p hp => h p hp))
  · have hfold := set_param_fold k.get_param k.parts []
      (by rw [kern.get_param]; rfl) h
    rw [kern.set_param, kern.param_slices]
    show ({ k with parts := List.zipWith _ k.parts (paramSlicesAux 0 k.parts) } : kern) = k
    rw [show (0 : Nat) = ([] : List Int).length from rfl, hfold]

/-- Witness for C2 at a concrete one-part composite with two parameters. -/
theorem C2_witness : (∀ p ∈ kC2.parts, p.params.length = p.Nparam)
    ∧ (kC2.get_param.length = kC2.Nparam ∧ kC2.set_param kC2.get_param = kC2) :=
  ⟨by decide, C2_thm kC2 (by decide)⟩


/-- One-parameter part used for the diagonal input-gradient failure witness. -/
def partC3 : kernpart where
  Nparam := 1
  params := [0]
  Kf := fun _ _ => []
  dpsi0_dthetaf := fun _ _ _ => []
  dpsi1_dthetaf := fun _ _ _ => []
  dpsi2_dthetaf := fun _ _ _ => []

def kC3 : kern := kern.init 1 [partC3] none

/-- C3: dKdiag_dX, contrary to the claim, cannot complete on any composite
with at least one part: the method takes no upstream-gradient argument and its
body subscripts the module-level functools.partial class, raising an error on
the first part processed.  This contradicts both the claim and the surrounding
code's own convention (dK_dX does take the upstream gradient), so the claim is
recorded as a code bug, evidenced by this theorem. -/
theorem C3_thm (k : kern) (X : Mat) (hp : k.parts.length ≠ 0)
    (his : k.input_slices.length = k.parts.length) (hX : Mat.shape1 X = k.D) :
    ∃ e, k.dKdiag_dX X none = .error e := by
  unfold kern.dKdiag_dX kern.process_slices1 processSel kern.Nparts
  rw [if_pos hX]
  rcases hps : k.parts with _ | ⟨p, ps⟩
  · exact absurd (by rw [hps]; rfl) hp
  · rcases hin : k.input_slices with _ | ⟨i1, is1⟩
    · rw [hps, hin] at his
      exact absurd his.symm (by simp)
    · rw [List.length_cons, List.replicate_succ]
      exact ⟨_, rfl⟩

/-- Witness for C3 at a concrete one-part composite and a 1 x 1 input. -/
theorem C3_witness : kC3.parts.length ≠ 0 ∧ kC3.input_slices.length = kC3.parts.length ∧
    Mat.shape1 [[2]] = kC3.D ∧ (∃ e, kC3.dKdiag_dX [[2]] none = .error e) :=
  ⟨by decide, by decide, by decide, C3_thm kC3 [[2]] (by decide) (by decide) (by decide)⟩

/-- One-parameter part used for the set_param length-check counterexample. -/
def partC4 : kernpart where
  Nparam := 1
  params := [9]
  Kf := fun _ _ => []
  dpsi0_dthetaf := fun _ _ _ => []
  dpsi1_dthetaf := fun _ _ _ => []
  dpsi2_dthetaf := fun _ _ _ => []

def kC4 : kern := kern.init 1 [partC4] none

/-- Counterexample for C4 as stated: set_param performs no length validation;
called on a one-parameter composite with the empty vector (length 0, not equal
to totalParamCount = 1) it does not fail, but silently forwards the clamped
empty slice to the part. -/
theorem C4_cex : ([] : List Int).length ≠ kC4.Nparam ∧
    (kC4.set_param []).parts.map kernpart.params = [[]] := by decide

/-- C4 (amended): set_param performs no length check; with a vector of length
exactly totalParamCount it forwards to each part precisely its paramSlice
sub-range of the vector (the consecutive chunks of the parts' Nparam sizes). -/
theorem C4_thm (k : kern) (x : List Int) (hx : x.length = k.Nparam) :
    (k.set_param x).parts.map kernpart.params = splitChunks x (k.parts.map kernpart.Nparam) := by
  have hb : 0 + (k.parts.map kernpart.Nparam).sum ≤ x.length := by
    rw [hx, kern.Nparam]; omega
  have := set_param_chunks x k.parts 0 hb
  rw [List.drop_zero] at this
  rw [kern.set_param, kern.param_slices]
  exact this

/-- Witness for C4 (amended) at a concrete one-part composite and vector [5]. -/
theorem C4_witness : ([5] : List Int).length = kC4.Nparam ∧
    (kC4.set_param [5]).parts.map kernpart.params
      = splitChunks [5] (kC4.parts.map kernpart.Nparam) :=
  ⟨by decide, C4_thm kC4 [5] (by decide)⟩

/-- Part 0 of the psi-gradient composite: one parameter, zero increments. -/
def psiPartA : kernpart where
  Nparam := 1
  params := [0]
  Kf := fun _ _ => []
  dpsi0_dthetaf := fun _ _ _ => []
  dpsi1_dthetaf := fun _ _ _ => [[[9]], [[9]]]
  dpsi2_dthetaf := fun _ _ _ => []

/-- Part 1 of the psi-gradient composite: one parameter, constant increments. -/
def psiPartB : kernpart where
  Nparam := 1
  params := [0]
  Kf := fun _ _ => []
  dpsi0_dthetaf := fun _ _ _ => [[7, 7]]
  dpsi1_dthetaf := fun _ _ _ => [[[7]], [[7]]]
  dpsi2_dthetaf := fun _ _ _ => []

def kPsi : kern := kern.init 1 [psiPartA, psiPartB] none

/-- C5: dpsi0_dtheta applies each part's parameter slice to the leading data
axis of the (N, Nparam) target instead of the parameter axis: in a two-part
composite (one parameter each), part 1 - whose paramSlice resolves to
parameter column 1 only - writes the value 7 at parameter column 0 (of data
row 1), inside part 0's column.  dpsi1_dtheta, by contrast, confines each part
to its own parameter columns.  The claim that all three psi hyperparameter
gradients write disjointly along the parameter axis therefore fails for
dpsi0_dtheta; since dK_dtheta, dKdiag_dtheta, dpsi1_dtheta and dpsi2_dtheta
all slice the parameter axis, the dpsi0_dtheta indexing is a code bug. -/
theorem C5_thm : Mat.ent (kPsi.dpsi0_dtheta [[0]] [[0], [0]] [[0], [0]]) 1 0 = 7
    ∧ (kPsi.param_slices.getD 1 fullSlice).resolve kPsi.Nparam = [1]
    ∧ (kPsi.param_slices.getD 0 fullSlice).resolve kPsi.Nparam = [0]
    ∧ kPsi.dpsi1_dtheta [[0]] [[0], [0]] [[0], [0]] = [[[9, 7]], [[9, 7]]] := by decide

/-- Part with one parameter used for the dpsi2_dtheta shape witness. -/
def partC6 : kernpart where
  Nparam := 1
  params := [0]
  Kf := fun _ _ => []
  dpsi0_dthetaf := fun _ _ _ => []
  dpsi1_dthetaf := fun _ _ _ => []
  dpsi2_dthetaf := fun _ _ _ => [[[4]]]

def kC6 : kern := kern.init 1 [partC6] none

theorem accum3_length (t : Arr3) (as_ bs cs : List Nat) (inc : Arr3) :
    (accum3 t as_ bs cs inc).length = t.length :=
  mapIdxFrom_length _ _ _

theorem dpsiFold3_length (f : kernpart → Arr3) (A B P : Nat) :
    ∀ (ps : List kernpart) (sls : List PySlice) (t : Arr3),
    (dpsiFold3 f A B P ps sls t).length = t.length := by
  intro ps
  induction ps with
  | nil => intro sls t; cases sls <;> rfl
  | cons p ps ih =>
    intro sls t
    cases sls with
    | nil => rfl
    | cons sl sls => rw [dpsiFold3, ih, accum3_length]

/-- C6: the dpsi2_dtheta target is allocated with leading dimension
Z.shape[0] = M, not mu.shape[0] = N: for every composite and inputs the result
has length Z.length, and at the concrete instance with M = 1, N = 2 the
returned leading dimension is 1 while the claim (and the method's own
docstring) require the leading data dimension 2.  Code bug. -/
theorem C6_thm : (∀ (k : kern) (Z mu S : Mat), (k.dpsi2_dtheta Z mu S).length = Z.length)
    ∧ (kC6.dpsi2_dtheta [[0]] [[0], [0]] [[0], [0]]).length = 1
    ∧ ([[(0 : Int)], [0]] : Mat).length = 2 := by
  refine ⟨fun k Z mu S => ?_, by decide, rfl⟩
  unfold kern.dpsi2_dtheta
  rw [dpsiFold3_length]
  simp [zeros3]


/-- C7: add_orthogonal produces a composite over dimension A.D + B.D whose
input slices are A's slices normalized to explicit ranges over A.D followed by
B's slices normalized over B.D and shifted by A.D; concretely, for A with
D = 2 and B with D = 3 (both full slices), the result has D = 5, A's part
reading columns 0-1 and B's part columns 2-4. -/
theorem C7_thm (A B : kern) (p q : kernpart) :
    ((A.add_orthogonal B).D = A.D + B.D
      ∧ (A.add_orthogonal B).input_slices
          = A.input_slices.map (specNormalize A.D)
            ++ B.input_slices.map (fun sl => specShift A.D (specNormalize B.D sl)))
    ∧ (((kern.init 2 [p] none).add_orthogonal (kern.init 3 [q] none)).D = 5
      ∧ ((kern.init 2 [p] none).add_orthogonal (kern.init 3 [q] none)).input_slices.map
          (fun sl => sl.resolve 5) = [[0, 1], [2, 3, 4]]) := by
  refine ⟨⟨?_, ?_⟩, ?_, ?_⟩
  · simp [kern.add_orthogonal, kern.init]
  · simp [kern.add_orthogonal, kern.init, specNormalize, specShift]
  · rfl
  · rw [show ((kern.init 2 [p] none).add_orthogonal (kern.init 3 [q] none)).input_slices
        = [PySlice.mk (some 0) (some 2) (some 1), PySlice.mk (some 2) (some 5) (some 1)] from rfl]
    decide

/-- Part used in the constraint-merge witness composites. -/
def partC8 : kernpart where
  Nparam := 1
  params := [2]
  Kf := fun _ _ => []
  dpsi0_dthetaf := fun _ _ _ => []
  dpsi1_dthetaf := fun _ _ _ => []
  dpsi2_dthetaf := fun _ _ _ => []

/-- One-parameter composite whose parameter 0 is constrained positive
(constraint state as left by the external parameterised container). -/
def kC8A : kern := { kern.init 1 [partC8] none with constrained_positive_indices := [0] }

def kC8B : kern := { kern.init 1 [partC8] none with constrained_positive_indices := [0] }

/-- C8: every constraint-metadata index collection of A.add(B) consists of
exactly A's entries together with B's entries shifted by A's total parameter
count (elementwise within each tied group). -/
theorem C8_thm (A B : kern) (hD : A.D = B.D) :
    (∀ x : Int, x ∈ (A.add B).constrained_positive_indices ↔
      x ∈ A.constrained_positive_indices ∨
        ∃ y ∈ B.constrained_positive_indices, x = (A.Nparam : Int) + y)
    ∧ (∀ x : Int, x ∈ (A.add B).constrained_negative_indices ↔
      x ∈ A.constrained_negative_indices ∨
        ∃ y ∈ B.constrained_negative_indices, x = (A.Nparam : Int) + y)
    ∧ (∀ x : Int, x ∈ (A.add B).constrained_bounded_indices ↔
      x ∈ A.constrained_bounded_indices ∨
        ∃ y ∈ B.constrained_bounded_indices, x = (A.Nparam : Int) + y)
    ∧ (∀ x : Int, x ∈ (A.add B).constrained_fixed_indices ↔
      x ∈ A.constrained_fixed_indices ∨
        ∃ y ∈ B.constrained_fixed_indices, x = (A.Nparam : Int) + y)
    ∧ (∀ g : List Int, g ∈ (A.add B).tied_indices ↔
      g ∈ A.tied_indices ∨
        ∃ h ∈ B.tied_indices, g = h.map (fun y => (A.Nparam : Int) + y)) := by
  refine ⟨?_, ?_, ?_, ?_, ?_⟩ <;> intro x <;>
    simp [kern.add, kern.init, List.mem_append, List.mem_map, eq_comm]

/-- Witness for C8: two one-parameter composites with positive index 0 merge
to positive indices 0 and 1. -/
theorem C8_witness : kC8A.D = kC8B.D
    ∧ (0 : Int) ∈ (kC8A.add kC8B).constrained_positive_indices
    ∧ (1 : Int) ∈ (kC8A.add kC8B).constrained_positive_indices
    ∧ (kC8A.add kC8B).constrained_positive_indices = [0, 1] :=
  ⟨rfl,
    ((C8_thm kC8A kC8B rfl).1 0).mpr (Or.inl (by decide)),
    ((C8_thm kC8A kC8B rfl).1 1).mpr (Or.inr ⟨0, by decide, by decide⟩),
    by decide⟩

/-- Two-part composite used for the row-selector resolution claims. -/
def kC9 : kern := kern.init 1 [partC8, partC8] (some [fullSlice, fullSlice])

/-- Counterexample for C9 as stated: a well-formed boolean list whose length
(1) differs from the number of parts (2) does not fail; _process_slices never
validates selector length and returns the short list as-is. -/
theorem C9_cex : kC9.Nparts = 2 ∧
    kC9.process_slices (some [PySel.pbool true]) none
      = .ok ([fullSlice], [fullSlice, fullSlice]) := by
  constructor
  · rfl
  · rfl

/-- C9 (amended): row-selector resolution fails exactly when a present
selector list is neither all-booleans nor all-slices; the length of the list
is not validated against the number of parts.  A well-formed boolean list maps
true to the full row range and false to the empty range. -/
theorem C9_thm (k : kern) (l : List PySel) (hl : l.all PySel.isBool = true) (n : Nat) :
    (∀ s1 s2, (∃ e, k.process_slices s1 s2 = .error e)
      ↔ (selectorMalformed s1 ∨ selectorMalformed s2))
    ∧ k.process_slices1 (some l) = .ok (l.map PySel.boolToSlice)
    ∧ fullSlice.resolve n = List.range n
    ∧ zeroSlice.resolve n = [] := by
  refine ⟨process_slices_error_iff k, ?_, resolve_full n, resolve_zero n⟩
  simp [kern.process_slices1, processSel, hl]

/-- Witness for C9 (amended): [True, False] resolves to the full range and the
empty range. -/
theorem C9_witness :
    ([PySel.pbool true, PySel.pbool false].all PySel.isBool = true)
    ∧ kC9.process_slices1 (some [PySel.pbool true, PySel.pbool false])
        = .ok [fullSlice, zeroSlice]
    ∧ fullSlice.resolve 2 = List.range 2
    ∧ zeroSlice.resolve 2 = [] := by
  have h := C9_thm kC9 [PySel.pbool true, PySel.pbool false] (by decide) 2
  exact ⟨by decide, h.2.1, h.2.2.1, h.2.2.2⟩

/-- One-part composite over a single input dimension, with a constant
covariance increment, used for the column-count check counterexample. -/
def partC10 : kernpart where
  Nparam := 1
  params := [0]
  Kf := fun _ _ => [[5]]
  dpsi0_dthetaf := fun _ _ _ => []
  dpsi1_dthetaf := fun _ _ _ => []
  dpsi2_dthetaf := fun _ _ _ => []

def kC10 : kern := kern.init 1 [partC10] none

/-- Counterexample for C10 as stated: K checks only X; with X2 of column count
2 against a composite of dimension 1, K completes normally instead of failing. -/
theorem C10_cex : Mat.shape1 [[0, 0]] ≠ kC10.D ∧
    kC10.K [[0]] (some [[0, 0]]) none none = .ok [[5]] := by
  constructor
  · decide
  · rfl

/-- C10 (amended): K(X, X2) with no row selectors fails exactly when X's
column count differs from the composite dimension; X2's column count is never
validated. -/
theorem C10_thm (k : kern) (X X2 : Mat) :
    (∃ e, k.K X (some X2) none none = .error e) ↔ Mat.shape1 X ≠ k.D := by
  unfold kern.K
  by_cases h : Mat.shape1 X = k.D
  · rw [if_pos h]
    simp only [kern.process_slices, processSel]
    simp [h]
  · rw [if_neg h]
    simp [h]

end GPy
